import Mathlib

/-!
# Verification of the alpaca-salon authoring and comment pages

A shallow embedding of the page-level logic of `src/pages/post/[id]/update.tsx`
(post-update authoring form with staged image uploads), `src/pages/post/[id].tsx`
(post detail page with its comment composer) and
`src/layouts/NavigationLayout.tsx` (bottom navigation tabs), together with
proofs about the staging store, the submission pipeline, the comment composer
and the navigation predicates.

External collaborators (the GraphQL mutation hooks, the upload helper, the
form library, the toast library and the router) are modelled by their observable
contracts: mutation and upload calls are recorded in a trace, their outcomes are
supplied as explicit parameters, and React state updates are taken to apply
immediately (the single-threaded event-loop model of the spec).
-/

namespace AlpacaSalon

/-! ## Decimal rendering of `Nat` (needed for the `image${id}` FormData keys)

`imageKey i = "image" ++ toString i` must be injective for the bundle-key
uniqueness arguments; we prove it by parsing the decimal digits back. -/

/-- Numeric value of a decimal digit character (inverse of `Nat.digitChar`
on digits `0`–`9`). -/
def digitVal (c : Char) : Nat := c.toNat - 48

/-- Value of a big-endian list of decimal digit characters. -/
def decDigits : List Char → Nat
  | [] => 0
  | c :: cs => digitVal c * 10 ^ cs.length + decDigits cs

theorem digitVal_digitChar {m : Nat} (h : m < 10) :
    digitVal (Nat.digitChar m) = m := by
  interval_cases m <;> rfl

theorem decDigits_toDigitsCore :
    ∀ (fuel n : Nat) (ds : List Char), n < 10 ^ fuel →
      decDigits (Nat.toDigitsCore 10 fuel n ds) = n * 10 ^ ds.length + decDigits ds := by
  intro fuel
  induction fuel with
  | zero =>
    intro n ds h
    have hn : n = 0 := Nat.lt_one_iff.mp (by simpa using h)
    subst hn
    simp [Nat.toDigitsCore]
  | succ f ih =>
    intro n ds h
    have hmod : n % 10 < 10 := Nat.mod_lt _ (by norm_num)
    by_cases h10 : n / 10 = 0
    · have hn : n % 10 = n := by omega
      have hval : digitVal (Nat.digitChar n) = n := by
        have h0 := digitVal_digitChar hmod
        rwa [hn] at h0
      simp [Nat.toDigitsCore, h10, decDigits, hn, hval]
    · have hlt : n / 10 < 10 ^ f := by
        rw [Nat.div_lt_iff_lt_mul (by norm_num : 0 < 10)]
        calc n < 10 ^ (f + 1) := h
          _ = 10 ^ f * 10 := by ring
      simp only [Nat.toDigitsCore, if_neg h10]
      rw [ih (n / 10) (Nat.digitChar (n % 10) :: ds) hlt]
      simp only [decDigits, digitVal_digitChar hmod, List.length_cons]
      have hdm : 10 * (n / 10) + n % 10 = n := Nat.div_add_mod n 10
      calc n / 10 * 10 ^ (ds.length + 1) + (n % 10 * 10 ^ ds.length + decDigits ds)
          = (10 * (n / 10) + n % 10) * 10 ^ ds.length + decDigits ds := by ring
        _ = n * 10 ^ ds.length + decDigits ds := by rw [hdm]

theorem decDigits_toDigits (n : Nat) : decDigits (Nat.toDigits 10 n) = n := by
  have hlt : n < 10 ^ (n + 1) :=
    lt_of_lt_of_le (Nat.lt_pow_self (by norm_num) n)
      (Nat.pow_le_pow_right (by norm_num) (Nat.le_succ n))
  simpa [decDigits] using decDigits_toDigitsCore (n + 1) n [] hlt

theorem decDigits_repr_data (n : Nat) : decDigits (Nat.repr n).data = n :=
  decDigits_toDigits n

theorem natRepr_injective : Function.Injective Nat.repr := by
  intro a b h
  have hd : (Nat.repr a).data = (Nat.repr b).data := congrArg String.data h
  calc a = decDigits (Nat.repr a).data := (decDigits_repr_data a).symm
    _ = decDigits (Nat.repr b).data := by rw [hd]
    _ = b := decDigits_repr_data b

/-! ## Data model: files, staged images, the staging store -/

/-- A browser `File`: its MIME content type and a name standing in for the
raw bytes (the staging logic never inspects the bytes). -/
structure File where
  type : String
  name : String
deriving DecidableEq

/-- Models `URL.createObjectURL`: a locally-resolvable preview reference for
the file, valid for the session. -/
def URL_createObjectURL (f : File) : String := "blob:" ++ f.name

/-- An entry of the `imageInfos` state (type `ImageInfo` from the create page):
a locally-assigned integer id together with the preview object URL. -/
structure ImageInfo where
  id : Nat
  url : String
deriving DecidableEq

/-- One `FormData` entry: the field name and the appended file. -/
abbrev FormDataEntry := String × File

/-- Models `FormData.has(name)`. -/
def hasKey (fd : List FormDataEntry) (k : String) : Bool :=
  fd.any (fun e => e.1 == k)

/-- The `FormData` field name `image${i}` used by `createPreviewImages`. -/
def imageKey (i : Nat) : String := "image" ++ Nat.repr i

theorem imageKey_injective : Function.Injective imageKey := by
  intro a b h
  have hd : "image".data ++ (Nat.repr a).data = "image".data ++ (Nat.repr b).data := by
    simpa [imageKey] using congrArg String.data h
  have hdata : (Nat.repr a).data = (Nat.repr b).data := List.append_cancel_left hd
  calc a = decDigits (Nat.repr a).data := (decDigits_repr_data a).symm
    _ = decDigits (Nat.repr b).data := by rw [hdata]
    _ = b := decDigits_repr_data b

theorem imageKey_ne_images (i : Nat) : imageKey i ≠ "images" := by
  intro h
  have hd : "image".data ++ (Nat.repr i).data = "image".data ++ ['s'] := by
    simpa [imageKey] using congrArg String.data h
  have hdata : (Nat.repr i).data = ['s'] := List.append_cancel_left hd
  have hi : i = decDigits ['s'] := by rw [← hdata, decDigits_repr_data]
  have h67 : i = 67 := by simpa [decDigits, digitVal] using hi
  rw [h67] at hdata
  exact absurd hdata (by decide)

/-- The staging store of the update page: the `imageInfos` React state, the
contents of the `formData` ref, and the `imageId` counter ref. -/
structure StagingState where
  imageInfos : List ImageInfo
  formData : List FormDataEntry
  imageId : Nat
deriving DecidableEq

/-- Staging state at mount: no previews, `new FormData()`, counter `0`. -/
def initialStagingState : StagingState := ⟨[], [], 0⟩

/-- Models `file.type.startsWith('image/')`: the characters `image/` form an initial
segment of the content type. (Stated on the character data so that it reduces
computationally; `String.startsWith` is extensionally the same test.) -/
def isImageFile (f : File) : Bool := "image/".data.isPrefixOf f.type.data

/-- The `for (const file of files)` loop of `createPreviewImages`: accumulates
`newImageUrls`, appends to the `FormData` under key `image${imageId.current++}`
(so the assigned id is the counter value at entry), then post-increments
`imageId.current` once more — the counter advances by 2 per accepted file. -/
def stageLoop : List File → List ImageInfo → List FormDataEntry → Nat →
    List ImageInfo × List FormDataEntry × Nat
  | [], newImageUrls, fd, iid => (newImageUrls, fd, iid)
  | f :: fs, newImageUrls, fd, iid =>
    if isImageFile f then
      stageLoop fs (newImageUrls ++ [⟨iid, URL_createObjectURL f⟩])
        (fd ++ [(imageKey iid, f)]) (iid + 2)
    else
      stageLoop fs newImageUrls fd iid

/-- Models `createPreviewImages` (`update.tsx:97-112`): when the selection is
non-empty, run the loop over the selected files and append the collected
previews to `imageInfos`. -/
def createPreviewImages (files : List File) (s : StagingState) : StagingState :=
  if 0 < files.length then
    let r := stageLoop files [] s.formData s.imageId
    { imageInfos := s.imageInfos ++ r.1, formData := r.2.1, imageId := r.2.2 }
  else s

/-- Models `deletePreviewImage` (`update.tsx:114-119`): `formData.delete` drops every
entry named `image${imageId}` and the preview list drops entries carrying that
id. -/
def deletePreviewImage (imageId : Nat) (s : StagingState) : StagingState :=
  { s with
    formData := s.formData.filter (fun e => e.1 != imageKey imageId)
    imageInfos := s.imageInfos.filter (fun p => p.id != imageId) }

/-- The previews one `createPreviewImages` call produces from counter `iid`. -/
def stagedInfos : List File → Nat → List ImageInfo
  | [], _ => []
  | f :: fs, iid =>
    if isImageFile f then
      ⟨iid, URL_createObjectURL f⟩ :: stagedInfos fs (iid + 2)
    else stagedInfos fs iid

/-- The `FormData` entries one `createPreviewImages` call appends. -/
def stagedEntries : List File → Nat → List FormDataEntry
  | [], _ => []
  | f :: fs, iid =>
    if isImageFile f then (imageKey iid, f) :: stagedEntries fs (iid + 2)
    else stagedEntries fs iid

/-- Number of image files in a selection. -/
def countImages (files : List File) : Nat := (files.filter isImageFile).length

theorem stageLoop_eq : ∀ (files : List File) (acc : List ImageInfo)
    (fd : List FormDataEntry) (iid : Nat),
    stageLoop files acc fd iid =
      (acc ++ stagedInfos files iid, fd ++ stagedEntries files iid,
        iid + 2 * countImages files) := by
  intro files
  induction files with
  | nil => intro acc fd iid; simp [stageLoop, stagedInfos, stagedEntries, countImages]
  | cons f fs ih =>
    intro acc fd iid
    by_cases hf : isImageFile f
    · simp only [stageLoop, stagedInfos, stagedEntries, if_pos hf, ih,
        List.append_assoc, List.singleton_append]
      refine congrArg (Prod.mk _) (congrArg (Prod.mk _) ?_)
      have : countImages (f :: fs) = countImages fs + 1 := by
        simp [countImages, hf]
      rw [this]; ring
    · simp only [stageLoop, stagedInfos, stagedEntries, if_neg hf, ih]
      have : countImages (f :: fs) = countImages fs := by
        simp [countImages, hf]
      rw [this]

theorem length_stagedInfos (files : List File) :
    ∀ iid, (stagedInfos files iid).length = countImages files := by
  induction files with
  | nil => intro iid; simp [stagedInfos, countImages]
  | cons f fs ih =>
    intro iid
    by_cases hf : isImageFile f <;> simp [stagedInfos, countImages, hf, ih]

theorem map_url_stagedInfos (files : List File) :
    ∀ iid, (stagedInfos files iid).map ImageInfo.url
      = (files.filter isImageFile).map URL_createObjectURL := by
  induction files with
  | nil => intro iid; simp [stagedInfos]
  | cons f fs ih =>
    intro iid
    by_cases hf : isImageFile f <;> simp [stagedInfos, hf, ih]

theorem map_key_stagedEntries (files : List File) :
    ∀ iid, (stagedEntries files iid).map Prod.fst
      = (stagedInfos files iid).map (fun i => imageKey i.id) := by
  induction files with
  | nil => intro iid; simp [stagedInfos, stagedEntries]
  | cons f fs ih =>
    intro iid
    by_cases hf : isImageFile f <;> simp [stagedInfos, stagedEntries, hf, ih]

theorem mem_stagedInfos_id (files : List File) :
    ∀ iid, ∀ i ∈ stagedInfos files iid,
      iid ≤ i.id ∧ i.id < iid + 2 * countImages files := by
  induction files with
  | nil => intro iid i hi; simp [stagedInfos] at hi
  | cons f fs ih =>
    intro iid i hi
    by_cases hf : isImageFile f
    · simp only [stagedInfos, if_pos hf, List.mem_cons] at hi
      have hc : countImages (f :: fs) = countImages fs + 1 := by simp [countImages, hf]
      rcases hi with hi | hi
      · subst hi; simp [hc]
      · have := ih (iid + 2) i hi
        rw [hc]; omega
    · simp only [stagedInfos, if_neg hf] at hi
      have hc : countImages (f :: fs) = countImages fs := by simp [countImages, hf]
      have := ih iid i hi
      rw [hc]; omega

theorem pairwise_stagedInfos_id (files : List File) :
    ∀ iid, ((stagedInfos files iid).map ImageInfo.id).Pairwise (· < ·) := by
  induction files with
  | nil => intro iid; simp [stagedInfos]
  | cons f fs ih =>
    intro iid
    by_cases hf : isImageFile f
    · simp only [stagedInfos, if_pos hf, List.map_cons, List.pairwise_cons]
      refine ⟨?_, ih (iid + 2)⟩
      intro a ha
      rcases List.mem_map.mp ha with ⟨i, hi, rfl⟩
      have := (mem_stagedInfos_id fs (iid + 2) i hi).1
      omega
    · simp only [stagedInfos, if_neg hf]
      exact ih iid

/-! ## Staging-store invariant and reachable states -/

/-- Session invariant of the staging store: preview ids are strictly
increasing (hence unique), bounded by the counter, and the `FormData` keys are
exactly the `image${id}` keys of the previews, in order. -/
def stagingInv (s : StagingState) : Prop :=
  ((s.imageInfos.map ImageInfo.id).Pairwise (· < ·)) ∧
  (∀ i ∈ s.imageInfos, i.id < s.imageId) ∧
  s.formData.map Prod.fst = s.imageInfos.map (fun i => imageKey i.id)

theorem stagingInv_initial : stagingInv initialStagingState := by
  refine ⟨?_, ?_, ?_⟩ <;> simp [initialStagingState]

theorem createPreviewImages_eq (files : List File) (s : StagingState)
    (hne : 0 < files.length) :
    createPreviewImages files s =
      { imageInfos := s.imageInfos ++ stagedInfos files s.imageId
        formData := s.formData ++ stagedEntries files s.imageId
        imageId := s.imageId + 2 * countImages files } := by
  unfold createPreviewImages
  rw [if_pos hne]
  simp [stageLoop_eq]

theorem createPreviewImages_empty (files : List File) (s : StagingState)
    (hne : ¬ 0 < files.length) : createPreviewImages files s = s := by
  unfold createPreviewImages
  rw [if_neg hne]

theorem stagingInv_stage (files : List File) (s : StagingState)
    (h : stagingInv s) : stagingInv (createPreviewImages files s) := by
  obtain ⟨hpw, hbound, hkeys⟩ := h
  by_cases hne : 0 < files.length
  · rw [createPreviewImages_eq files s hne]
    refine ⟨?_, ?_, ?_⟩
    · rw [List.map_append, List.pairwise_append]
      refine ⟨hpw, pairwise_stagedInfos_id files s.imageId, ?_⟩
      intro a ha b hb
      rcases List.mem_map.mp ha with ⟨i, hi, rfl⟩
      rcases List.mem_map.mp hb with ⟨j, hj, rfl⟩
      have h1 := hbound i hi
      have h2 := (mem_stagedInfos_id files s.imageId j hj).1
      omega
    · show ∀ i ∈ s.imageInfos ++ stagedInfos files s.imageId,
        i.id < s.imageId + 2 * countImages files
      intro i hi
      rcases List.mem_append.mp hi with hi | hi
      · have := hbound i hi
        omega
      · have := (mem_stagedInfos_id files s.imageId i hi).2
        omega
    · show (s.formData ++ stagedEntries files s.imageId).map Prod.fst = _
      rw [List.map_append, List.map_append, hkeys, map_key_stagedEntries]
  · rw [createPreviewImages_empty files s hne]
    exact ⟨hpw, hbound, hkeys⟩

theorem filter_key_map_fst (fd : List FormDataEntry) (k : String) :
    (fd.filter (fun e => e.1 != k)).map Prod.fst
      = (fd.map Prod.fst).filter (fun x => x != k) := by
  induction fd with
  | nil => simp
  | cons e fd ih =>
    by_cases he : e.1 = k <;> simp [he, ih]

theorem stagingInv_unstage (target : Nat) (s : StagingState)
    (h : stagingInv s) : stagingInv (deletePreviewImage target s) := by
  obtain ⟨hpw, hbound, hkeys⟩ := h
  refine ⟨?_, ?_, ?_⟩
  · have hsub : (s.imageInfos.filter (fun p => p.id != target)).Sublist s.imageInfos :=
      List.filter_sublist _
    have : ((s.imageInfos.filter (fun p => p.id != target)).map ImageInfo.id).Sublist
        (s.imageInfos.map ImageInfo.id) := hsub.map _
    exact hpw.sublist this
  · intro i hi
    exact hbound i (List.mem_of_mem_filter hi)
  · show (s.formData.filter (fun e => e.1 != imageKey target)).map Prod.fst
        = (s.imageInfos.filter (fun p => p.id != target)).map (fun i => imageKey i.id)
    rw [filter_key_map_fst, hkeys, List.filter_map]
    refine congrArg _ (List.filter_congr ?_)
    intro i _
    show ((fun x => x != imageKey target) ∘ fun i => imageKey i.id) i = (i.id != target)
    by_cases hi : i.id = target
    · simp [Function.comp, hi]
    · have h2 : imageKey i.id ≠ imageKey target := fun hk => hi (imageKey_injective hk)
      have e1 : (i.id == target) = false := by simp [beq_eq_false_iff_ne, hi]
      have e2 : (imageKey i.id == imageKey target) = false := by
        simp [beq_eq_false_iff_ne, h2]
      simp [Function.comp, bne, e1, e2]

/-- The operations a user can perform on the staging store during one
authoring session. -/
inductive StagingOp where
  | stage (files : List File)
  | unstage (id : Nat)
deriving DecidableEq

/-- Apply one staging operation. -/
def applyStagingOp (s : StagingState) : StagingOp → StagingState
  | .stage files => createPreviewImages files s
  | .unstage i => deletePreviewImage i s

/-- The staging state after a sequence of operations in a fresh session. -/
def runOps (ops : List StagingOp) : StagingState :=
  ops.foldl applyStagingOp initialStagingState

theorem stagingInv_foldl (ops : List StagingOp) :
    ∀ s, stagingInv s → stagingInv (ops.foldl applyStagingOp s) := by
  induction ops with
  | nil => intro s hs; simpa using hs
  | cons op ops ih =>
    intro s hs
    rw [List.foldl_cons]
    refine ih _ ?_
    cases op with
    | stage files => exact stagingInv_stage files s hs
    | unstage i => exact stagingInv_unstage i s hs

theorem stagingInv_runOps (ops : List StagingOp) : stagingInv (runOps ops) :=
  stagingInv_foldl ops initialStagingState stagingInv_initial

/-- Under the invariant, no `FormData` key is the literal string `"images"`:
the keys are `image0`, `image2`, …, never `images`. -/
theorem hasKey_images_eq_false (s : StagingState) (h : stagingInv s) :
    hasKey s.formData "images" = false := by
  obtain ⟨-, -, hkeys⟩ := h
  rw [Bool.eq_false_iff]
  intro hany
  rcases List.any_eq_true.mp hany with ⟨e, he, heq⟩
  have hmem : e.1 ∈ s.formData.map Prod.fst := List.mem_map.mpr ⟨e, he, rfl⟩
  rw [hkeys] at hmem
  rcases List.mem_map.mp hmem with ⟨i, -, hkey⟩
  exact imageKey_ne_images i.id (hkey.trans (eq_of_beq heq))

/-- The counter never decreases under any operation. -/
theorem imageId_mono (s : StagingState) (op : StagingOp) :
    s.imageId ≤ (applyStagingOp s op).imageId := by
  cases op with
  | stage files =>
    show s.imageId ≤ (createPreviewImages files s).imageId
    by_cases hne : 0 < files.length
    · rw [createPreviewImages_eq files s hne]; exact Nat.le_add_right _ _
    · rw [createPreviewImages_empty files s hne]
  | unstage i => exact Nat.le_refl _

/-! ## Claims about the staging store (C4, C6, C7) -/

theorem createPreviewImages_imageInfos (files : List File) (s : StagingState) :
    (createPreviewImages files s).imageInfos
      = s.imageInfos ++ stagedInfos files s.imageId := by
  by_cases hne : 0 < files.length
  · rw [createPreviewImages_eq files s hne]
  · rw [createPreviewImages_empty files s hne]
    have : files = [] := List.length_eq_zero.mp (by omega)
    subst this
    simp [stagedInfos]

theorem foldl_stage_length (sels : List (List File)) :
    ∀ s : StagingState,
      ((sels.foldl (fun t files => createPreviewImages files t) s).imageInfos.length
        = s.imageInfos.length + (sels.map countImages).sum) := by
  induction sels with
  | nil => intro s; simp
  | cons files sels ih =>
    intro s
    rw [List.foldl_cons, ih]
    simp [createPreviewImages_imageInfos, length_stagedInfos]
    omega

theorem foldl_stage_urls (sels : List (List File)) :
    ∀ s : StagingState,
      ((sels.foldl (fun t files => createPreviewImages files t) s).imageInfos.map ImageInfo.url
        = s.imageInfos.map ImageInfo.url
          ++ (sels.map fun files => (files.filter isImageFile).map URL_createObjectURL).flatten) := by
  induction sels with
  | nil => intro s; simp
  | cons files sels ih =>
    intro s
    rw [List.foldl_cons, ih]
    simp [createPreviewImages_imageInfos, map_url_stagedInfos]

/-- C4: across any sequence of `stage` calls in a fresh session, only image
files produce `StagedImage` entries — the entries are exactly the previews of
the image files of all calls in order, so their count is the count of image
files — and staging an empty selection leaves any state unchanged (no error is
possible: `createPreviewImages` is total). -/
theorem stage_filters_to_images (sels : List (List File)) :
    ((sels.foldl (fun t files => createPreviewImages files t)
        initialStagingState).imageInfos.length = (sels.map countImages).sum)
    ∧ ((sels.foldl (fun t files => createPreviewImages files t)
        initialStagingState).imageInfos.map ImageInfo.url
        = (sels.map fun files => (files.filter isImageFile).map URL_createObjectURL).flatten)
    ∧ (∀ s : StagingState, createPreviewImages [] s = s) := by
  refine ⟨?_, ?_, ?_⟩
  · rw [foldl_stage_length]
    simp [initialStagingState]
  · rw [foldl_stage_urls]
    simp [initialStagingState]
  · intro s
    exact createPreviewImages_empty [] s (by simp)

/-- C6: `unstage` (`deletePreviewImage`) removes the matching entry from both
the ordered preview sequence and the upload bundle, leaves every other entry
of either untouched, never fails, is a no-op when the id is absent, and is
idempotent; under the session invariant the preview entry and the bundle entry
for an id are present both-or-neither. -/
theorem unstage_spec (s : StagingState) (target : Nat) :
    (∀ i ∈ (deletePreviewImage target s).imageInfos, i.id ≠ target)
    ∧ (∀ e ∈ (deletePreviewImage target s).formData, e.1 ≠ imageKey target)
    ∧ (∀ i ∈ s.imageInfos, i.id ≠ target → i ∈ (deletePreviewImage target s).imageInfos)
    ∧ (∀ e ∈ s.formData, e.1 ≠ imageKey target → e ∈ (deletePreviewImage target s).formData)
    ∧ (deletePreviewImage target s).imageId = s.imageId
    ∧ deletePreviewImage target (deletePreviewImage target s) = deletePreviewImage target s
    ∧ ((∀ i ∈ s.imageInfos, i.id ≠ target) → (∀ e ∈ s.formData, e.1 ≠ imageKey target) →
        deletePreviewImage target s = s)
    ∧ (stagingInv s →
        ((∃ i ∈ s.imageInfos, i.id = target) ↔ imageKey target ∈ s.formData.map Prod.fst)) := by
  refine ⟨?_, ?_, ?_, ?_, rfl, ?_, ?_, ?_⟩
  · intro i hi
    exact bne_iff_ne.mp (List.mem_filter.mp hi).2
  · intro e he
    exact bne_iff_ne.mp (List.mem_filter.mp he).2
  · intro i hi hne
    exact List.mem_filter.mpr ⟨hi, bne_iff_ne.mpr hne⟩
  · intro e he hne
    exact List.mem_filter.mpr ⟨he, bne_iff_ne.mpr hne⟩
  · cases s with
    | mk infos fd iid =>
      simp only [deletePreviewImage, StagingState.mk.injEq]
      refine ⟨?_, ?_, trivial⟩ <;>
        exact List.filter_eq_self.mpr fun a ha => (List.mem_filter.mp ha).2
  · intro hinfos hfd
    cases s with
    | mk infos fd iid =>
      simp only [deletePreviewImage, StagingState.mk.injEq]
      refine ⟨?_, ?_, trivial⟩
      · exact List.filter_eq_self.mpr fun i hi => bne_iff_ne.mpr (hinfos i hi)
      · exact List.filter_eq_self.mpr fun e he => bne_iff_ne.mpr (hfd e he)
  · rintro ⟨-, -, hkeys⟩
    rw [hkeys]
    constructor
    · rintro ⟨i, hi, rfl⟩
      exact List.mem_map.mpr ⟨i, hi, rfl⟩
    · rintro hmem
      rcases List.mem_map.mp hmem with ⟨i, hi, hkey⟩
      exact ⟨i, hi, imageKey_injective hkey⟩

/-- Witness for C6 at a concrete state: unstaging an absent id is a no-op. -/
theorem unstage_spec_witness :
    deletePreviewImage 5 ⟨[⟨0, "blob:a"⟩], [(imageKey 0, ⟨"image/png", "a"⟩)], 2⟩
      = ⟨[⟨0, "blob:a"⟩], [(imageKey 0, ⟨"image/png", "a"⟩)], 2⟩ :=
  (unstage_spec ⟨[⟨0, "blob:a"⟩], [(imageKey 0, ⟨"image/png", "a"⟩)], 2⟩ 5).2.2.2.2.2.2.1
    (by decide) (by decide)

/-- C7: in every reachable session state the preview ids are strictly
increasing in staging order (hence pairwise distinct), the bundle keys are
pairwise distinct, every assigned id is below the counter, the counter never
decreases, and a subsequent `stage` call hands out only ids at or above the
counter — so a `localId` is never reused, even after unstaging. -/
theorem localId_fresh_unique (ops : List StagingOp) :
    (((runOps ops).imageInfos.map ImageInfo.id).Pairwise (· < ·))
    ∧ ((runOps ops).imageInfos.map ImageInfo.id).Nodup
    ∧ ((runOps ops).formData.map Prod.fst).Nodup
    ∧ (∀ i ∈ (runOps ops).imageInfos, i.id < (runOps ops).imageId)
    ∧ (∀ op, (runOps ops).imageId ≤ (applyStagingOp (runOps ops) op).imageId)
    ∧ (∀ files, ∀ i ∈ stagedInfos files (runOps ops).imageId,
        (runOps ops).imageId ≤ i.id) := by
  obtain ⟨hpw, hbound, hkeys⟩ := stagingInv_runOps ops
  have hnodup : ((runOps ops).imageInfos.map ImageInfo.id).Nodup :=
    hpw.imp Nat.ne_of_lt
  refine ⟨hpw, hnodup, ?_, hbound, imageId_mono _, ?_⟩
  · rw [hkeys]
    have hmm : ((runOps ops).imageInfos.map fun i => imageKey i.id)
        = ((runOps ops).imageInfos.map ImageInfo.id).map imageKey := by
      rw [List.map_map]; rfl
    rw [hmm]
    exact hnodup.map imageKey_injective
  · intro files i hi
    exact (mem_stagedInfos_id files _ i hi).1

/-- Witness for C7 at a concrete session: stage an image and a text file,
unstage the image, stage another image — the new id `2` is fresh and below the
final counter. -/
theorem localId_fresh_unique_witness :
    (⟨2, "blob:c"⟩ : ImageInfo)
        ∈ (runOps [.stage [⟨"image/png", "a"⟩, ⟨"text/plain", "b"⟩], .unstage 0,
            .stage [⟨"image/jpeg", "c"⟩]]).imageInfos
    ∧ (⟨2, "blob:c"⟩ : ImageInfo).id
        < (runOps [.stage [⟨"image/png", "a"⟩, ⟨"text/plain", "b"⟩], .unstage 0,
            .stage [⟨"image/jpeg", "c"⟩]]).imageId := by
  have h : (runOps [.stage [⟨"image/png", "a"⟩, ⟨"text/plain", "b"⟩], .unstage 0,
      .stage [⟨"image/jpeg", "c"⟩]]).imageInfos = [⟨2, "blob:c"⟩] := rfl
  refine ⟨?_, ?_⟩
  · rw [h]
    exact List.mem_singleton_self _
  · refine (localId_fresh_unique [.stage [⟨"image/png", "a"⟩, ⟨"text/plain", "b"⟩],
      .unstage 0, .stage [⟨"image/jpeg", "c"⟩]]).2.2.2.1 _ ?_
    rw [h]
    exact List.mem_singleton_self _

/-! ## The update page: form controller and submission pipeline

`PostUpdatePage` (`update.tsx`). The GraphQL hooks are modelled by their
observable contract: calls are recorded in a trace and their outcomes arrive
as explicit resolution events. With the `onError` option installed, the Apollo
mutate promise resolves instead of rejecting, so `updatePost` continues past
`await updatePostMutation(...)` even on a mutation error; `uploadImageFiles`
has no handler, so its rejection propagates out of `updatePost` uncaught. -/

/-- Models `UpdatePostMutationVariables.input`: `{ id: postId, ...input }`, with
`imageUrls` filled in only after a successful upload. -/
structure UpdatePostInput where
  id : String
  title : String
  contents : String
  imageUrls : Option (List String)
deriving DecidableEq

/-- Observable side effects of one session: bundles passed to
`uploadImageFiles`, variables passed to `updatePostMutation`, the toasts shown
(success / warn / error), and `router.back()` navigations. Lists grow by
appending, so the trace is a chronological log. -/
structure Trace where
  uploadCalls : List (List FormDataEntry)
  mutationCalls : List UpdatePostInput
  successToasts : List String
  warnToasts : List String
  errorToasts : List String
  backNavigations : Nat
deriving DecidableEq

/-- The empty log. -/
def emptyTrace : Trace := ⟨[], [], [], [], [], 0⟩

/-- The `await` point at which an in-flight `updatePost` call is suspended. -/
inductive Pending where
  | atUpload (vars : UpdatePostInput)
  | atMutation (vars : UpdatePostInput)
deriving DecidableEq

/-- The update page component state: `usePostQuery` loading flag, the two form
fields, the staging store, `isPostUpdateLoading`, the current react-hook-form
field error (one message, title before contents), and the suspension point of
an in-flight `updatePost`. -/
structure UpdatePageState where
  loading : Bool
  title : String
  contents : String
  staging : StagingState
  isPostUpdateLoading : Bool
  errors : Option String
  pending : Option Pending

/-- Component state at mount: query in flight, empty form, fresh staging
store, not submitting. -/
def initialUpdatePageState : UpdatePageState :=
  { loading := true, title := "", contents := "", staging := initialStagingState,
    isPostUpdateLoading := false, errors := none, pending := none }

/-- Message of `register('title', { required: … })`. -/
def titleRequiredMessage : String := "글 제목을 작성한 후 완료를 눌러주세요"

/-- Message of `register('contents', { required: … })`. -/
def contentsRequiredMessage : String := "글 내용을 작성한 후 완료를 눌러주세요"

/-- The react-hook-form validation of the two registered `required` rules.
The title message takes precedence, matching
`errors.title?.message ?? errors.contents?.message` in the warn-toast effect
(`update.tsx:134-138`). -/
def validateUpdateForm (title contents : String) : Option String :=
  if title = "" then some titleRequiredMessage
  else if contents = "" then some contentsRequiredMessage
  else none

/-- Models `disabled={loading || !isEmpty(errors) || isPostUpdateLoading}` on the
submit button (`update.tsx:148-153`). -/
def submitDisabled (s : UpdatePageState) : Bool :=
  s.loading || s.errors.isSome || s.isPostUpdateLoading

/-- External stimuli of one session on the update page: the post query
completing (`onCompleted` filling the form via `setValue`), typing into the
enabled inputs, the file-input change and preview delete handlers, a press of
the submit button, and the settling of the awaited upload / mutation calls. -/
inductive UpdateEvent where
  | postLoaded (title contents : String)
  | setTitle (t : String)
  | setContents (c : String)
  | selectFiles (files : List File)
  | removeImage (id : Nat)
  | clickSubmit
  | uploadResolved (r : Except String (List String))
  | mutationResolved (r : Except String Bool)

/-- The continuation of `updatePost` when the awaited `uploadImageFiles`
promise settles. On success the hosted URLs are stored into the variables and
`updatePostMutation` is invoked; on failure the rejection propagates out of
`updatePost` uncaught — the flag stays set and nothing is toasted. With no
call suspended there, the event is a no-op. -/
def uploadSettled (s : UpdatePageState) (tr : Trace) :
    Option Pending → Except String (List String) → UpdatePageState × Trace
  | some (.atUpload vars), .ok imageUrls =>
      let v2 := { vars with imageUrls := some imageUrls }
      ({ s with pending := some (.atMutation v2) },
        { tr with mutationCalls := tr.mutationCalls ++ [v2] })
  | some (.atUpload _), .error _ => ({ s with pending := none }, tr)
  | _, _ => (s, tr)

/-- The continuation of `updatePost` when the awaited `updatePostMutation`
promise settles: `.ok true` runs `onCompleted` with a non-null payload
(success toast, `router.back()`); `.ok false` a null payload; `.error e` runs
`onError` (`toastApolloError e`) and — because an `onError` handler is
installed — the mutate promise resolves rather than rejects. In every case
`updatePost` resumes and runs `setIsPostUpdateLoading(false)`. -/
def mutationSettled (s : UpdatePageState) (tr : Trace) :
    Option Pending → Except String Bool → UpdatePageState × Trace
  | some (.atMutation _), .ok true =>
      ({ s with pending := none, isPostUpdateLoading := false },
        { tr with successToasts := tr.successToasts ++ ["글을 수정했어요"],
                  backNavigations := tr.backNavigations + 1 })
  | some (.atMutation _), .ok false =>
      ({ s with pending := none, isPostUpdateLoading := false }, tr)
  | some (.atMutation _), .error e =>
      ({ s with pending := none, isPostUpdateLoading := false },
        { tr with errorToasts := tr.errorToasts ++ [e] })
  | _, _ => (s, tr)

/-- One step of the update-page session. `postId` is `router.query.id`.

* `clickSubmit` on an enabled button runs `handleSubmit`: a validation
  failure sets the field error and fires the warn toast; on valid input
  `updatePost` runs to its first `await` — `isPostUpdateLoading := true`,
  the variables are built, and since the upload is guarded by
  `formData.current?.has('images')`, either `uploadImageFiles` (key present)
  or directly `updatePostMutation` (key absent) is invoked.
* `uploadResolved (ok urls)` stores `imageUrls` into the variables and invokes
  the mutation; `uploadResolved (error _)` is an uncaught rejection: the flag
  stays set and nothing is toasted.
* `mutationResolved` models the mutate promise settling: `.ok true` runs
  `onCompleted` (success toast, `router.back()`), `.error e` runs `onError`
  (`toastApolloError e`); in all cases `updatePost` resumes and clears the
  flag. -/
def stepUpdate (postId : String) :
    UpdatePageState × Trace → UpdateEvent → UpdatePageState × Trace
  | (s, tr), .postLoaded t c => ({ s with loading := false, title := t, contents := c }, tr)
  | (s, tr), .setTitle t =>
      if s.loading || s.isPostUpdateLoading then (s, tr) else ({ s with title := t }, tr)
  | (s, tr), .setContents c =>
      if s.loading || s.isPostUpdateLoading then (s, tr) else ({ s with contents := c }, tr)
  | (s, tr), .selectFiles files =>
      if s.loading || s.isPostUpdateLoading then (s, tr)
      else ({ s with staging := createPreviewImages files s.staging }, tr)
  | (s, tr), .removeImage i => ({ s with staging := deletePreviewImage i s.staging }, tr)
  | (s, tr), .clickSubmit =>
      if submitDisabled s then (s, tr)
      else
        match validateUpdateForm s.title s.contents with
        | some msg =>
            ({ s with errors := some msg },
              { tr with warnToasts := tr.warnToasts ++ [msg] })
        | none =>
            let vars : UpdatePostInput :=
              { id := postId, title := s.title, contents := s.contents, imageUrls := none }
            if hasKey s.staging.formData "images" then
              ({ s with isPostUpdateLoading := true, pending := some (.atUpload vars) },
                { tr with uploadCalls := tr.uploadCalls ++ [s.staging.formData] })
            else
              ({ s with isPostUpdateLoading := true, pending := some (.atMutation vars) },
                { tr with mutationCalls := tr.mutationCalls ++ [vars] })
  | (s, tr), .uploadResolved r => uploadSettled s tr s.pending r
  | (s, tr), .mutationResolved r => mutationSettled s tr s.pending r

/-- A whole session: fold the events over the mount state with an empty log. -/
def runUpdateSession (postId : String) (events : List UpdateEvent) :
    UpdatePageState × Trace :=
  events.foldl (stepUpdate postId) (initialUpdatePageState, emptyTrace)

/-- Session invariant: the staging invariant holds, `updatePost` is never
suspended at the upload `await` (the `has('images')` guard never passes), the
flag tracks the in-flight call, and the upload collaborator has never been
invoked. -/
def sessionInv (s : UpdatePageState) (tr : Trace) : Prop :=
  stagingInv s.staging
  ∧ (∀ v, s.pending ≠ some (.atUpload v))
  ∧ (s.isPostUpdateLoading = true ↔ ∃ v, s.pending = some (.atMutation v))
  ∧ tr.uploadCalls = []

theorem sessionInv_initial : sessionInv initialUpdatePageState emptyTrace := by
  refine ⟨stagingInv_initial, ?_, ?_, rfl⟩
  · intro v h
    simp [initialUpdatePageState] at h
  · simp [initialUpdatePageState]

theorem sessionInv_step (postId : String) (s : UpdatePageState) (tr : Trace)
    (h : sessionInv s tr) (e : UpdateEvent) :
    sessionInv (stepUpdate postId (s, tr) e).1 (stepUpdate postId (s, tr) e).2 := by
  obtain ⟨hstaging, hnoupload, hflag, hcalls⟩ := h
  cases e with
  | postLoaded t c => exact ⟨hstaging, hnoupload, hflag, hcalls⟩
  | setTitle t =>
    by_cases hd : s.loading || s.isPostUpdateLoading <;>
      simp only [stepUpdate, hd, if_true, if_false] <;>
      exact ⟨hstaging, hnoupload, hflag, hcalls⟩
  | setContents c =>
    by_cases hd : s.loading || s.isPostUpdateLoading <;>
      simp only [stepUpdate, hd, if_true, if_false] <;>
      exact ⟨hstaging, hnoupload, hflag, hcalls⟩
  | selectFiles files =>
    by_cases hd : s.loading || s.isPostUpdateLoading <;>
      simp only [stepUpdate, hd, if_true, if_false]
    · exact ⟨hstaging, hnoupload, hflag, hcalls⟩
    · exact ⟨stagingInv_stage files s.staging hstaging, hnoupload, hflag, hcalls⟩
  | removeImage i =>
    exact ⟨stagingInv_unstage i s.staging hstaging, hnoupload, hflag, hcalls⟩
  | clickSubmit =>
    by_cases hd : submitDisabled s = true
    · simp only [stepUpdate, hd, if_true]
      exact ⟨hstaging, hnoupload, hflag, hcalls⟩
    · simp only [stepUpdate, Bool.not_eq_true] at hd ⊢
      rw [if_neg (by simp [hd])]
      cases hv : validateUpdateForm s.title s.contents with
      | some msg => exact ⟨hstaging, hnoupload, hflag, hcalls⟩
      | none =>
        have hkey : hasKey s.staging.formData "images" = false :=
          hasKey_images_eq_false s.staging hstaging
        simp only [hkey, Bool.false_eq_true, if_false]
        refine ⟨hstaging, ?_, ?_, hcalls⟩
        · intro v h
          simp at h
        · simp
  | uploadResolved r =>
    show sessionInv (uploadSettled s tr s.pending r).1 (uploadSettled s tr s.pending r).2
    cases hp : s.pending with
    | none =>
      cases r <;> simp only [uploadSettled] <;> exact ⟨hstaging, hnoupload, hflag, hcalls⟩
    | some p =>
      cases p with
      | atUpload v => exact absurd hp (hnoupload v)
      | atMutation v =>
        cases r <;> simp only [uploadSettled] <;> exact ⟨hstaging, hnoupload, hflag, hcalls⟩
  | mutationResolved r =>
    show sessionInv (mutationSettled s tr s.pending r).1 (mutationSettled s tr s.pending r).2
    cases hp : s.pending with
    | none =>
      cases r with
      | ok b =>
        cases b <;> simp only [mutationSettled] <;> exact ⟨hstaging, hnoupload, hflag, hcalls⟩
      | error e =>
        simp only [mutationSettled]
        exact ⟨hstaging, hnoupload, hflag, hcalls⟩
    | some p =>
      cases p with
      | atUpload v => exact absurd hp (hnoupload v)
      | atMutation v =>
        cases r with
        | ok b =>
          cases b <;> simp only [mutationSettled] <;>
            refine ⟨hstaging, ?_, ?_, hcalls⟩ <;> simp
        | error e =>
          simp only [mutationSettled]
          refine ⟨hstaging, ?_, ?_, hcalls⟩ <;> simp

theorem sessionInv_foldl (postId : String) (events : List UpdateEvent) :
    ∀ p : UpdatePageState × Trace, sessionInv p.1 p.2 →
      sessionInv ((events.foldl (stepUpdate postId) p)).1
        ((events.foldl (stepUpdate postId) p)).2 := by
  induction events with
  | nil => intro p h; simpa using h
  | cons e events ih =>
    rintro ⟨s, tr⟩ h
    rw [List.foldl_cons]
    exact ih _ (sessionInv_step postId s tr h e)

theorem sessionInv_run (postId : String) (events : List UpdateEvent) :
    sessionInv (runUpdateSession postId events).1 (runUpdateSession postId events).2 :=
  sessionInv_foldl postId events (initialUpdatePageState, emptyTrace) sessionInv_initial

/-! ## Claims about the submission pipeline (C1, C3, C5, C8) -/

/-- In no session is the upload collaborator ever invoked: the guard tests
`formData.current?.has('images')`, but the bundle keys are `image0`,
`image2`, …, never the literal `images`. -/
theorem upload_never_invoked (postId : String) (events : List UpdateEvent) :
    (runUpdateSession postId events).2.uploadCalls = [] :=
  (sessionInv_run postId events).2.2.2

/-- C1 at the failing input: load the post, stage one image file (the bundle
is then non-empty), press submit with valid fields. `updatePost` never calls
`uploadImageFiles` — `uploadCalls` stays empty — and invokes the mutation
immediately with `imageUrls` absent, so the staged image is silently lost. -/
theorem submit_skips_upload_on_nonempty_bundle :
    ((runUpdateSession "p1"
        [.postLoaded "t" "c", .selectFiles [⟨"image/png", "a"⟩], .clickSubmit]).2.uploadCalls
      = [])
    ∧ ((runUpdateSession "p1"
        [.postLoaded "t" "c", .selectFiles [⟨"image/png", "a"⟩], .clickSubmit]).1.staging.formData
      = [(imageKey 0, ⟨"image/png", "a"⟩)])
    ∧ ((runUpdateSession "p1"
        [.postLoaded "t" "c", .selectFiles [⟨"image/png", "a"⟩], .clickSubmit]).2.mutationCalls
      = [{ id := "p1", title := "t", contents := "c", imageUrls := none }]) :=
  ⟨rfl, rfl, rfl⟩

/-- C3: in every reachable session state with a submission in flight the
pipeline is suspended at the mutation `await` (an upload failure cannot occur,
since the upload is never started), and when the pending mutation fails the
`isPostUpdateLoading` flag is cleared, exactly the failure toast is appended,
and the whole authoring state — title, contents, previews, bundle, field
errors — is untouched, so the same submit can be re-invoked. -/
theorem submit_failure_resets_and_preserves (postId : String)
    (events : List UpdateEvent) (e : String) :
    (∀ v, (runUpdateSession postId events).1.pending ≠ some (.atUpload v))
    ∧ (runUpdateSession postId events).2.uploadCalls = []
    ∧ (∀ p, (runUpdateSession postId events).1.pending = some p →
        ((stepUpdate postId (runUpdateSession postId events)
            (.mutationResolved (.error e))).1.isPostUpdateLoading = false
        ∧ (stepUpdate postId (runUpdateSession postId events)
            (.mutationResolved (.error e))).2.errorToasts
            = (runUpdateSession postId events).2.errorToasts ++ [e]
        ∧ (stepUpdate postId (runUpdateSession postId events)
            (.mutationResolved (.error e))).1.title
            = (runUpdateSession postId events).1.title
        ∧ (stepUpdate postId (runUpdateSession postId events)
            (.mutationResolved (.error e))).1.contents
            = (runUpdateSession postId events).1.contents
        ∧ (stepUpdate postId (runUpdateSession postId events)
            (.mutationResolved (.error e))).1.staging
            = (runUpdateSession postId events).1.staging
        ∧ (stepUpdate postId (runUpdateSession postId events)
            (.mutationResolved (.error e))).1.errors
            = (runUpdateSession postId events).1.errors
        ∧ (stepUpdate postId (runUpdateSession postId events)
            (.mutationResolved (.error e))).2.mutationCalls
            = (runUpdateSession postId events).2.mutationCalls
        ∧ (stepUpdate postId (runUpdateSession postId events)
            (.mutationResolved (.error e))).2.uploadCalls
            = (runUpdateSession postId events).2.uploadCalls)) := by
  have hinv := sessionInv_run postId events
  rcases hq : runUpdateSession postId events with ⟨s, tr⟩
  rw [hq] at hinv
  obtain ⟨hstaging, hnoupload, hflag, hcalls⟩ := hinv
  refine ⟨hnoupload, hcalls, ?_⟩
  intro p hp
  cases p with
  | atUpload v => exact absurd hp (hnoupload v)
  | atMutation v =>
    have hstep : stepUpdate postId (s, tr) (.mutationResolved (.error e))
        = ({ s with pending := none, isPostUpdateLoading := false },
           { tr with errorToasts := tr.errorToasts ++ [e] }) := by
      show mutationSettled s tr s.pending (.error e) = _
      rw [hp]
      simp only [mutationSettled]
    rw [hstep]
    exact ⟨rfl, rfl, rfl, rfl, rfl, rfl, rfl, rfl⟩

/-- Witness for C3: after loading the post and submitting valid fields a
mutation is pending; resolving it with an error clears the flag, toasts the
error once, and preserves the authoring state. -/
theorem submit_failure_resets_and_preserves_witness :
    (runUpdateSession "p1" [.postLoaded "t" "c", .clickSubmit]).1.pending
      = some (.atMutation { id := "p1", title := "t", contents := "c", imageUrls := none })
    ∧ ((stepUpdate "p1" (runUpdateSession "p1" [.postLoaded "t" "c", .clickSubmit])
        (.mutationResolved (.error "boom"))).1.isPostUpdateLoading = false
      ∧ (stepUpdate "p1" (runUpdateSession "p1" [.postLoaded "t" "c", .clickSubmit])
        (.mutationResolved (.error "boom"))).2.errorToasts
        = (runUpdateSession "p1" [.postLoaded "t" "c", .clickSubmit]).2.errorToasts
          ++ ["boom"]) := by
  have h := (submit_failure_resets_and_preserves "p1"
    [.postLoaded "t" "c", .clickSubmit] "boom").2.2
    (.atMutation { id := "p1", title := "t", contents := "c", imageUrls := none }) rfl
  exact ⟨rfl, h.1, h.2.1⟩

/-- C5: pressing submit on an enabled button with an empty required field
blocks the submission — the handler only records the field error and fires one
warn toast (the title message taking precedence), leaving the rest of the
state, including the trace of upload and mutation calls, unchanged. A click on
a disabled button changes nothing at all. -/
theorem empty_field_blocks_submission (postId : String) (s : UpdatePageState)
    (tr : Trace) (henabled : submitDisabled s = false)
    (hempty : s.title = "" ∨ s.contents = "") :
    stepUpdate postId (s, tr) .clickSubmit
      = ({ s with errors := some (if s.title = ""
              then titleRequiredMessage else contentsRequiredMessage) },
         { tr with warnToasts := tr.warnToasts
            ++ [if s.title = "" then titleRequiredMessage else contentsRequiredMessage] }) := by
  have hv : validateUpdateForm s.title s.contents
      = some (if s.title = "" then titleRequiredMessage else contentsRequiredMessage) := by
    unfold validateUpdateForm
    by_cases ht : s.title = ""
    · simp [ht]
    · rcases hempty with h | h
      · exact absurd h ht
      · simp [ht, h]
  show (if submitDisabled s then (s, tr) else _) = _
  rw [if_neg (by simp [henabled])]
  simp only [hv]

/-- Witness for C5: at the loaded-but-empty form one click appends exactly
the title message and no collaborator call. -/
theorem empty_field_blocks_submission_witness :
    (stepUpdate "p1" ({ initialUpdatePageState with loading := false }, emptyTrace)
        .clickSubmit).2.warnToasts = [titleRequiredMessage]
    ∧ (stepUpdate "p1" ({ initialUpdatePageState with loading := false }, emptyTrace)
        .clickSubmit).2.mutationCalls = []
    ∧ (stepUpdate "p1" ({ initialUpdatePageState with loading := false }, emptyTrace)
        .clickSubmit).2.uploadCalls = [] := by
  have h := empty_field_blocks_submission "p1"
    { initialUpdatePageState with loading := false } emptyTrace rfl (Or.inl rfl)
  rw [h]
  exact ⟨rfl, rfl, rfl⟩

/-- C8: while a submission is in flight (`isPostUpdateLoading = true`) the
submit button is disabled, so a second click performs no work at all; hence
from any reachable enabled state with valid fields, two overlapping submit
clicks produce exactly one new mutation call (and still no upload call). -/
theorem double_submit_single_mutation (postId : String) (events : List UpdateEvent) :
    (∀ (s : UpdatePageState) (tr : Trace), s.isPostUpdateLoading = true →
        stepUpdate postId (s, tr) .clickSubmit = (s, tr))
    ∧ (submitDisabled (runUpdateSession postId events).1 = false →
        validateUpdateForm (runUpdateSession postId events).1.title
          (runUpdateSession postId events).1.contents = none →
        ((stepUpdate postId (runUpdateSession postId events) .clickSubmit).2.mutationCalls.length
          = (runUpdateSession postId events).2.mutationCalls.length + 1
        ∧ stepUpdate postId (stepUpdate postId (runUpdateSession postId events) .clickSubmit)
            .clickSubmit
          = stepUpdate postId (runUpdateSession postId events) .clickSubmit
        ∧ (stepUpdate postId (runUpdateSession postId events) .clickSubmit).2.uploadCalls
          = (runUpdateSession postId events).2.uploadCalls)) := by
  have hbusy : ∀ (s : UpdatePageState) (tr : Trace), s.isPostUpdateLoading = true →
      stepUpdate postId (s, tr) .clickSubmit = (s, tr) := by
    intro s tr hflagtrue
    show (if submitDisabled s then (s, tr) else _) = (s, tr)
    rw [if_pos (by simp [submitDisabled, hflagtrue])]
  refine ⟨hbusy, ?_⟩
  intro henabled hvalid
  have hinv := sessionInv_run postId events
  rcases hq : runUpdateSession postId events with ⟨s, tr⟩
  rw [hq] at hinv henabled hvalid
  obtain ⟨hstaging, hnoupload, hflag, hcalls⟩ := hinv
  have hkey : hasKey s.staging.formData "images" = false :=
    hasKey_images_eq_false s.staging hstaging
  have hstep : stepUpdate postId (s, tr) .clickSubmit
      = ({ s with
            isPostUpdateLoading := true
            pending := some (.atMutation
              { id := postId, title := s.title, contents := s.contents, imageUrls := none }) },
         { tr with mutationCalls := tr.mutationCalls
            ++ [{ id := postId, title := s.title, contents := s.contents,
                  imageUrls := none }] }) := by
    show (if submitDisabled s then (s, tr) else _) = _
    rw [if_neg (by simp [henabled])]
    simp only [hvalid, hkey, Bool.false_eq_true, if_false]
  rw [hstep]
  refine ⟨by simp, ?_, rfl⟩
  exact hbusy _ _ rfl

/-- Witness for C8: load the post with valid fields, click twice; exactly one
mutation call is logged and the second click is a no-op. -/
theorem double_submit_single_mutation_witness :
    ((stepUpdate "p1" (runUpdateSession "p1" [.postLoaded "t" "c"]) .clickSubmit).2.mutationCalls.length
      = (runUpdateSession "p1" [.postLoaded "t" "c"]).2.mutationCalls.length + 1)
    ∧ stepUpdate "p1" (stepUpdate "p1" (runUpdateSession "p1" [.postLoaded "t" "c"]) .clickSubmit)
        .clickSubmit
      = stepUpdate "p1" (runUpdateSession "p1" [.postLoaded "t" "c"]) .clickSubmit := by
  have h := (double_submit_single_mutation "p1" [.postLoaded "t" "c"]).2 rfl rfl
  exact ⟨h.1, h.2.1⟩

/-! ## The post detail page: comment composer (`[id].tsx`) -/

/-- Models `ParentComment` (`[id].tsx:208-212`): the snapshot of the comment being
replied to. -/
structure ParentComment where
  id : String
  nickname : String
  contents : String
deriving DecidableEq

/-- Models `CreateCommentMutationVariables`: `{ contents, postId, commentId? }` —
`commentId` is set to the parent comment's id exactly when a reply target is
attached (`[id].tsx:259-261`). -/
structure CreateCommentVars where
  contents : String
  postId : String
  commentId : Option String
deriving DecidableEq

/-- Comment composer state: the form's `contents` field, the `parentComment`
reply target, and the mutation's `loading` flag (which disables the textarea
and the submit button while a call is in flight). -/
structure CommentPageState where
  contents : String
  parentComment : Option ParentComment
  loading : Bool
deriving DecidableEq

/-- Composer state at mount. -/
def initialCommentPageState : CommentPageState :=
  { contents := "", parentComment := none, loading := false }

/-- Observable effects of the comment composer. -/
structure CommentTrace where
  mutationCalls : List CreateCommentVars
  successToasts : List String
  errorToasts : List String
deriving DecidableEq

/-- The empty comment-composer log. -/
def emptyCommentTrace : CommentTrace := ⟨[], [], []⟩

/-- External stimuli of the comment composer: typing, attaching/detaching a
reply target (`setParentComment`), submitting the form, and the create-comment
mutation settling. -/
inductive CommentEvent where
  | typeContents (c : String)
  | setParent (p : Option ParentComment)
  | submitForm
  | commentMutationResolved (r : Except String Bool)

/-- The settling of `createCommentMutation`: `.ok true` runs `onCompleted`
with a non-null payload — success toast and `setParentComment(undefined)`;
`.error e` runs `onError` (`toastApolloError e`) and changes no composer
state; either way the mutation's `loading` flag drops. -/
def commentMutationSettled (s : CommentPageState) (tr : CommentTrace) :
    Except String Bool → CommentPageState × CommentTrace
  | .ok true =>
      ({ s with loading := false, parentComment := none },
        { tr with successToasts := tr.successToasts ++ ["댓글을 작성했어요"] })
  | .ok false => ({ s with loading := false }, tr)
  | .error e =>
      ({ s with loading := false },
        { tr with errorToasts := tr.errorToasts ++ [e] })

/-- One step of the comment composer. `submitForm` models
`handleSubmit(createComment)`: nothing happens while the controls are
disabled (`loading`) or when the required `contents` is empty; otherwise
`createComment` builds `{ contents, postId, commentId? }`, fires
`createCommentMutation({ variables })`, and then calls `reset()` —
unconditionally clearing the `contents` field back to its default before the
mutation has settled. -/
def stepComment (postId : String) :
    CommentPageState × CommentTrace → CommentEvent → CommentPageState × CommentTrace
  | (s, tr), .typeContents c =>
      if s.loading then (s, tr) else ({ s with contents := c }, tr)
  | (s, tr), .setParent p => ({ s with parentComment := p }, tr)
  | (s, tr), .submitForm =>
      if s.loading then (s, tr)
      else if s.contents = "" then (s, tr)
      else
        ({ s with contents := "", loading := true },
          { tr with mutationCalls := tr.mutationCalls
              ++ [{ contents := s.contents, postId := postId,
                    commentId := s.parentComment.map ParentComment.id }] })
  | (s, tr), .commentMutationResolved r =>
      if s.loading then commentMutationSettled s tr r else (s, tr)

/-- A whole comment-composer session. -/
def runCommentSession (postId : String) (events : List CommentEvent) :
    CommentPageState × CommentTrace :=
  events.foldl (stepComment postId) (initialCommentPageState, emptyCommentTrace)

/-! ## Claim C2 (comment composer submit) -/

/-- Counterexample to C2 as stated: type `hi` with a reply target attached,
submit, and let the mutation fail. The payload and the error toast are as the
claim says, and the parent reference is indeed untouched — but the `contents`
field, `hi` just before the submit, is empty after the failure: `reset()`
already cleared it when the mutation was fired, so the composer state is not
left untouched on failure. -/
theorem comment_failure_clears_contents :
    ((runCommentSession "p1" [.setParent (some ⟨"c1", "nick", "x"⟩), .typeContents "hi"]).1.contents
      = "hi")
    ∧ ((runCommentSession "p1" [.setParent (some ⟨"c1", "nick", "x"⟩), .typeContents "hi",
        .submitForm, .commentMutationResolved (.error "boom")]).1.contents = "")
    ∧ ((runCommentSession "p1" [.setParent (some ⟨"c1", "nick", "x"⟩), .typeContents "hi",
        .submitForm, .commentMutationResolved (.error "boom")]).1.parentComment
      = some ⟨"c1", "nick", "x"⟩)
    ∧ ((runCommentSession "p1" [.setParent (some ⟨"c1", "nick", "x"⟩), .typeContents "hi",
        .submitForm, .commentMutationResolved (.error "boom")]).2.mutationCalls
      = [{ contents := "hi", postId := "p1", commentId := some "c1" }])
    ∧ ((runCommentSession "p1" [.setParent (some ⟨"c1", "nick", "x"⟩), .typeContents "hi",
        .submitForm, .commentMutationResolved (.error "boom")]).2.errorToasts = ["boom"]) :=
  ⟨rfl, rfl, rfl, rfl, rfl⟩

/-- C2 as amended: a submit with non-empty contents sends
`{ contents, postId, commentId := parent?.id }` and immediately clears the
contents field (leaving the parent reference), because `reset()` runs when the
mutation is fired, not on its success. When the mutation settles, success
clears the parent reference and toasts; failure surfaces the error and leaves
the parent reference — and the already-cleared contents — unchanged. -/
theorem comment_submit_spec (postId : String) (s : CommentPageState)
    (tr : CommentTrace) (e : String)
    (hnotloading : s.loading = false) (hne : s.contents ≠ "") :
    (stepComment postId (s, tr) .submitForm
      = ({ s with contents := "", loading := true },
         { tr with mutationCalls := tr.mutationCalls
            ++ [{ contents := s.contents, postId := postId,
                  commentId := s.parentComment.map ParentComment.id }] }))
    ∧ (∀ (s' : CommentPageState) (tr' : CommentTrace), s'.loading = true →
        ((stepComment postId (s', tr') (.commentMutationResolved (.ok true))).1.parentComment
          = none
        ∧ (stepComment postId (s', tr') (.commentMutationResolved (.ok true))).2.successToasts
          = tr'.successToasts ++ ["댓글을 작성했어요"]
        ∧ (stepComment postId (s', tr') (.commentMutationResolved (.error e))).1.parentComment
          = s'.parentComment
        ∧ (stepComment postId (s', tr') (.commentMutationResolved (.error e))).1.contents
          = s'.contents
        ∧ (stepComment postId (s', tr') (.commentMutationResolved (.error e))).2.errorToasts
          = tr'.errorToasts ++ [e]
        ∧ (stepComment postId (s', tr') (.commentMutationResolved (.error e))).2.mutationCalls
          = tr'.mutationCalls)) := by
  constructor
  · show (if s.loading then (s, tr) else _) = _
    rw [hnotloading]
    simp only [Bool.false_eq_true, if_false, if_neg hne]
  · intro s' tr' hloading
    have hstep : ∀ r, stepComment postId (s', tr') (.commentMutationResolved r)
        = commentMutationSettled s' tr' r := by
      intro r
      show (if s'.loading then commentMutationSettled s' tr' r else (s', tr')) = _
      rw [hloading]
      simp
    simp [hstep, commentMutationSettled]

/-- Witness for C2 (amended) at a concrete composer state. -/
theorem comment_submit_spec_witness :
    (stepComment "p1" (⟨"hi", some ⟨"c1", "nick", "x"⟩, false⟩, emptyCommentTrace) .submitForm
      = (⟨"", some ⟨"c1", "nick", "x"⟩, true⟩,
         { emptyCommentTrace with
            mutationCalls := [{ contents := "hi", postId := "p1", commentId := some "c1" }] }))
    ∧ (stepComment "p1" (⟨"", some ⟨"c1", "nick", "x"⟩, true⟩, emptyCommentTrace)
        (.commentMutationResolved (.error "boom"))).1.parentComment
      = some ⟨"c1", "nick", "x"⟩ := by
  have h := comment_submit_spec "p1" ⟨"hi", some ⟨"c1", "nick", "x"⟩, false⟩
    emptyCommentTrace "boom" rfl (by decide)
  refine ⟨h.1, ?_⟩
  exact (h.2 ⟨"", some ⟨"c1", "nick", "x"⟩, true⟩ emptyCommentTrace rfl).2.2.1

/-! ## Claim C9 (line-count render hints) -/

/-- Models `contentsLines` (`update.tsx:68`): the authoring form's render hint
`watch('contents').split('\n').length * 1.6`, passed as the `height` of the
textarea. -/
def contentsLines (contents : String) : ℚ :=
  ((contents.split (fun c => c == '\n')).length : ℚ) * 1.6

/-- Models `contentsLineCount` (`[id].tsx:254`): the comment composer's render hint
`watch('contents').split('\n').length`. -/
def contentsLineCount (contents : String) : Nat :=
  (contents.split (fun c => c == '\n')).length

/-- The claim's measure: the number of newline-delimited segments of the
string, i.e. the length of the list obtained by splitting on `'\n'`. -/
def newlineSegmentCount (contents : String) : Nat :=
  (contents.split (fun c => c == '\n')).length

theorem split_ab : "a\nb".split (fun c => c == '\n') = ["a", "b"] := by
  rw [String.split_of_valid]
  rfl

/-- Counterexample to C9 as stated: at `"a\nb"` there are two
newline-delimited segments, but the authoring form's hint is
`2 * 1.6 = 3.2`, not `2`. -/
theorem contentsLines_ne_segmentCount :
    contentsLines "a\nb" ≠ (newlineSegmentCount "a\nb" : ℚ) := by
  unfold contentsLines newlineSegmentCount
  rw [split_ab]
  norm_num

/-- C9 as amended: the comment composer's hint equals the number of
newline-delimited segments; the authoring form's hint is `1.6` times that
number (it is the textarea height, not the raw count). Either hint is at
least one segment's worth, so the comment page's `contentsLineCount > 0`
render condition always holds — the hint never actually gates anything. -/
theorem lineCount_hints (contents : String) :
    contentsLineCount contents = newlineSegmentCount contents
    ∧ contentsLines contents = (newlineSegmentCount contents : ℚ) * 1.6
    ∧ 1 ≤ contentsLineCount contents := by
  refine ⟨rfl, rfl, ?_⟩
  unfold contentsLineCount
  rw [String.split_of_valid]
  rw [List.length_map]
  exact List.length_pos.mpr (List.splitOnP_ne_nil _ _)

/-! ## Claim C10 (navigation tabs, `NavigationLayout.tsx:54-79`) -/

/-- Models `doesPostListSelected` (`NavigationLayout.tsx:57`): `asPath === '/'`. -/
def doesPostListSelected (asPath : String) : Bool := asPath == "/"

/-- Models `doesEventListSelected` (`NavigationLayout.tsx:58`):
`asPath.startsWith('/event')`, stated on the character data (see
`isImageFile`). -/
def doesEventListSelected (asPath : String) : Bool := "/event".data.isPrefixOf asPath.data

/-- C10: the post-list tab is highlighted exactly on the root path, the event
tab exactly on paths starting with `/event`, and no path satisfies both, so at
most one tab is ever highlighted. -/
theorem nav_tabs_mutually_exclusive (asPath : String) :
    (doesPostListSelected asPath = true ↔ asPath = "/")
    ∧ (doesEventListSelected asPath = true ↔ "/event".data.isPrefixOf asPath.data = true)
    ∧ ¬(doesPostListSelected asPath = true ∧ doesEventListSelected asPath = true) := by
  refine ⟨?_, Iff.rfl, ?_⟩
  · simp [doesPostListSelected]
  · rintro ⟨h1, h2⟩
    have hroot : asPath = "/" := by simpa [doesPostListSelected] using h1
    subst hroot
    exact absurd h2 (by decide)

/-- Witness for C10: on the event path only the event tab could be
highlighted; the mutual-exclusion consequence holds there. -/
theorem nav_tabs_mutually_exclusive_witness :
    ¬(doesPostListSelected "/event" = true ∧ doesEventListSelected "/event" = true) :=
  (nav_tabs_mutually_exclusive "/event").2.2

end AlpacaSalon
